import Mathlib

/-!
Verification of the TurisLima unified recommendation engine.

This file gives a shallow embedding of the recommendation core of the
backend (files `app/utils/unified_recommender.py`, `app/utils/cold_start.py`,
`app/utils/recommender_engine.py`, `app/utils/cf_aux.py` and
`app/routes/recommender.py`) and proves properties of it.

Modelling conventions:
* Python floats are idealised as elements of a linear ordered field `K`
  (instantiated with `ℝ` where `math.exp` / L2 norms are involved, and with
  `ℚ` in concrete evaluations);
* MongoDB collections are modelled as lookup functions
  `String → Option (UserDoc K)`; vector-search backends and category queries
  are abstract parameters (they are external services in the spec);
* Python dicts are modelled as association lists with insertion order,
  `dictSet` / `dictAdd` being dict assignment and `d[k] = d.get(k, 0) + v`.
-/

namespace TurisLima

/-! ## Association-list model of Python dicts -/

/-- Python `dict` assignment `d[k] = v`: update the entry in place if the key
is present, otherwise append at the end (insertion order). -/
def dictSet {K : Type} : List (String × K) → String → K → List (String × K)
  | [], k, v => [(k, v)]
  | p :: d, k, v => if p.1 = k then (k, v) :: d else p :: dictSet d k v

/-- Python `d[k] = d.get(k, 0) + v` (score accumulation into a dict). -/
def dictAdd {K : Type} [Add K] : List (String × K) → String → K → List (String × K)
  | [], k, v => [(k, v)]
  | p :: d, k, v => if p.1 = k then (p.1, p.2 + v) :: d else p :: dictAdd d k v

/-- `d.get(k, 0)`. -/
def lookupVal {K : Type} [Zero K] : List (String × K) → String → K
  | [], _ => 0
  | p :: d, k => if p.1 = k then p.2 else lookupVal d k

/-- The keys of a dict, in insertion order. -/
def keys {K : Type} (d : List (String × K)) : List String :=
  d.map Prod.fst

/-- Python `list(dict.fromkeys(l))`: deduplicate keeping the first
occurrence of each element. -/
def pyDedup (l : List String) : List String :=
  l.foldl (fun acc x => if x ∈ acc then acc else acc ++ [x]) []

/-- Python `sorted(d.items(), key=lambda x: x[1], reverse=True)`:
stable sort, descending by the score component. -/
def sortByScoreDesc {K : Type} [LinearOrder K] (l : List (String × K)) : List (String × K) :=
  l.mergeSort (fun a b => decide (b.2 ≤ a.2))

/-! ## Vectors (numpy arrays idealised as lists of reals) -/

/-- Componentwise vector addition (`u + v` on numpy arrays). -/
def vadd (a b : List ℝ) : List ℝ := List.zipWith (· + ·) a b

/-- Scalar multiplication (`c * v` on numpy arrays). -/
def smul (c : ℝ) (v : List ℝ) : List ℝ := v.map (fun x => c * x)

/-- `np.dot`. -/
def dot (a b : List ℝ) : ℝ := (List.zipWith (· * ·) a b).sum

/-- Sum of squared entries. -/
def norm2 (v : List ℝ) : ℝ := (v.map (fun x => x * x)).sum

/-- `np.linalg.norm` (L2 norm). -/
noncomputable def norm (v : List ℝ) : ℝ := Real.sqrt (norm2 v)

/-! ## Data model

A Mongo user document as used by the recommendation subsystem: interaction
logs `likes` / `saves` / `visits` (entries carry an item id and a
timestamp), free-text `preferences`, the `seen` id list, and the
collaborative `vector` / `total_weight` pair.  A collection is a lookup
function `String → Option (UserDoc K)` (`find_one` by `_id`). -/

structure InteractionEntry (K : Type) where
  id : String
  ts : K

structure UserDoc (K : Type) where
  likes : List (InteractionEntry K)
  saves : List (InteractionEntry K)
  visits : List (InteractionEntry K)
  preferences : List String
  seen : List String
  vector : Option (List K)
  total_weight : K

/-- An interaction entry with the item's embedding attached
(result shape of `_fetch_embeddings` in `get_all_user_interactions`). -/
structure EmbeddedInteraction (K : Type) where
  id : String
  ts : K
  vector : List K

/-! ## Interaction-kind weight tables (three distinct sites in the source) -/

/-- `INTERACTION_WEIGHTS` of `recommender_engine.py` (content-based EMA). -/
def INTERACTION_WEIGHTS {K : Type} [LinearOrderedField K] : String → Option K := fun t =>
  if t = "view" then some 0.1
  else if t = "click" then some 0.2
  else if t = "share" then some 0.3
  else if t = "save" then some 0.5
  else if t = "visit" then some 0.7
  else if t = "like" then some 0.8
  else none

/-- `INTERACTION_WEIGHTS.get(interaction_type, 0.1)` in `update_user_vector`. -/
def contentWeightOf {K : Type} [LinearOrderedField K] (t : String) : K :=
  (INTERACTION_WEIGHTS t).getD 0.1

/-- `LEARNING_RATE` (alpha) of `recommender_engine.py`. -/
def LEARNING_RATE : ℝ := 0.15

/-- `INTERACTION_WEIGHTS` of `routes/recommender.py`. -/
def ROUTE_INTERACTION_WEIGHTS {K : Type} [LinearOrderedField K] : String → Option K := fun t =>
  if t = "save" then some 0.8
  else if t = "like" then some 0.5
  else if t = "visit" then some 1.2
  else none

/-- `INTERACTION_WEIGHTS.get(interaction, 0.3)` in
`update_user_embedding_and_recommend`. -/
def routeWeightOf {K : Type} [LinearOrderedField K] (t : String) : K :=
  (ROUTE_INTERACTION_WEIGHTS t).getD 0.3

/-- `LIKE_STRENGTH` of `cf_aux.py`. -/
def LIKE_STRENGTH {K : Type} [LinearOrderedField K] : K := 1.0

/-- `SAVE_STRENGTH` of `cf_aux.py`. -/
def SAVE_STRENGTH {K : Type} [LinearOrderedField K] : K := 2.0

/-- `VISIT_STRENGTH` of `cf_aux.py`. -/
def VISIT_STRENGTH {K : Type} [LinearOrderedField K] : K := 0.5

/-- `LAMBDA_DECAY` constant of `cf_aux.py`. -/
def LAMBDA_DECAY {K : Type} [LinearOrderedField K] : K := 0.01

/-- Default `lambda_decay` of `get_full_recalc_user_vector`. -/
def FULL_RECALC_LAMBDA_DEFAULT {K : Type} [LinearOrderedField K] : K := 0.05

/-- `interaction_weights.get(interaction_type, 1.0)` in `get_events_from_user`
of `cf_aux.py`. -/
def cf_interaction_weight {K : Type} [LinearOrderedField K] (t : String) : K :=
  (if t = "likes" then some LIKE_STRENGTH
   else if t = "saves" then some SAVE_STRENGTH
   else if t = "visits" then some VISIT_STRENGTH
   else none).getD 1.0

/-! ## `recommender_engine.py`: content-based EMA update -/

/-- The pre-normalization EMA vector
`(1 - alpha) * user_vec + alpha * weight(kind) * item_vec`. -/
noncomputable def emaVec (user_vec item_vec : List ℝ) (interaction_type : String)
    (alpha : ℝ) : List ℝ :=
  vadd (smul (1 - alpha) user_vec) (smul (alpha * contentWeightOf interaction_type) item_vec)

/-- `update_user_vector` of `recommender_engine.py`: EMA update followed by
L2 normalization guarded by `norm > 0`. -/
noncomputable def update_user_vector (user_vec item_vec : List ℝ) (interaction_type : String)
    (alpha : ℝ) : List ℝ :=
  let new_vec := emaVec user_vec item_vec interaction_type alpha
  if 0 < norm new_vec then new_vec.map (fun x => x / norm new_vec) else new_vec

/-! ## `cf_aux.py`: similarity, full-history vector, collaborative filtering -/

/-- `cosine_similarity` of `cf_aux.py`. -/
noncomputable def cosine_similarity (a b : List ℝ) : ℝ :=
  if norm a = 0 ∨ norm b = 0 then 0 else dot a b / (norm a * norm b)

/-- `get_all_user_interactions`: looks the user up (raising
`ValueError("user not found: ...")` when absent) and attaches each
interacted item's embedding, fetched by id from the data collection
(modelled by `item_vec`). -/
def get_all_user_interactions {K : Type} (find_one : String → Option (UserDoc K))
    (item_vec : String → List K) (user_id : String) :
    Except String (List (EmbeddedInteraction K) × List (EmbeddedInteraction K) ×
      List (EmbeddedInteraction K)) :=
  match find_one user_id with
  | none => .error ("user not found: " ++ user_id)
  | some u =>
    .ok (u.likes.map (fun a => ⟨a.id, a.ts, item_vec a.id⟩),
         u.saves.map (fun a => ⟨a.id, a.ts, item_vec a.id⟩),
         u.visits.map (fun a => ⟨a.id, a.ts, item_vec a.id⟩))

/-- The state threaded by `add_items` in `get_full_recalc_user_vector`:
the optional running vector sum and the running total weight. -/
noncomputable def addItems (now lam strength : ℝ) (st : Option (List ℝ) × ℝ)
    (items : List (EmbeddedInteraction ℝ)) : Option (List ℝ) × ℝ :=
  items.foldl (fun st item =>
    let age_days := (now - item.ts) / 86400
    let decay := Real.exp (-(lam * age_days))
    let weight := strength * decay
    let weighted_vec := smul weight item.vector
    (some (match st.1 with
           | none => weighted_vec
           | some s => vadd s weighted_vec), st.2 + weight)) st

/-- Normalization at the end of `get_full_recalc_user_vector`
(`norm == 0` guard: the zero vector passes through unnormalized). -/
noncomputable def normalizeVec (v : List ℝ) : List ℝ :=
  if norm v = 0 then v else v.map (fun x => x / norm v)

/-- `get_full_recalc_user_vector` of `cf_aux.py`, applied to the user's
fetched interaction lists: decayed interaction-weighted vector sum,
normalized, with the accumulated total weight. -/
noncomputable def get_full_recalc_user_vector
    (likes saves visits : List (EmbeddedInteraction ℝ)) (now lam : ℝ) :
    Option (List ℝ) × ℝ :=
  let st := addItems now lam LIKE_STRENGTH (none, 0) likes
  let st := addItems now lam SAVE_STRENGTH st saves
  let st := addItems now lam VISIT_STRENGTH st visits
  match st.1 with
  | none => (none, 0)
  | some vector_sum => (some (normalizeVec vector_sum), st.2)

/-- The decayed interaction weight of the spec:
`strength(kind) · exp(−λ · age_days)` with `age_days = (now − ts) / 1 day`. -/
noncomputable def decayWeight (now lam strength : ℝ) (it : EmbeddedInteraction ℝ) : ℝ :=
  strength * Real.exp (-(lam * ((now - it.ts) / 86400)))

/-- All of a user's interactions as (decayed weight, item vector) pairs, in
the order `add_items` visits them: likes, then saves, then visits. -/
noncomputable def weightedInteractions (now lam : ℝ)
    (likes saves visits : List (EmbeddedInteraction ℝ)) : List (ℝ × List ℝ) :=
  likes.map (fun it => (decayWeight now lam LIKE_STRENGTH it, it.vector)) ++
  saves.map (fun it => (decayWeight now lam SAVE_STRENGTH it, it.vector)) ++
  visits.map (fun it => (decayWeight now lam VISIT_STRENGTH it, it.vector))

/-- `add_items` expressed directly on (weight, vector) pairs. -/
noncomputable def addPairs (st : Option (List ℝ) × ℝ) (l : List (ℝ × List ℝ)) :
    Option (List ℝ) × ℝ :=
  l.foldl (fun st p =>
    (some (match st.1 with
           | none => smul p.1 p.2
           | some s => vadd s (smul p.1 p.2)), st.2 + p.1)) st

/-- `Σ weight · item_vec` over a non-empty list of weighted interactions
(the empty case never reaches the normalization in the source). -/
noncomputable def weightedVecSum : List (ℝ × List ℝ) → List ℝ
  | [] => []
  | p :: l => l.foldl (fun s q => vadd s (smul q.1 q.2)) (smul p.1 p.2)

/-- `Σ weight` over a list of weighted interactions. -/
noncomputable def totalWeight (l : List (ℝ × List ℝ)) : ℝ :=
  (l.map Prod.fst).sum

/-- `get_user_seen_event_ids` of `cf_aux.py`: reads the `seen` field. -/
def get_user_seen_event_ids {K : Type} (find_one : String → Option (UserDoc K))
    (user_id : String) : List String :=
  match find_one user_id with
  | none => []
  | some u => u.seen

/-- `user.get(interaction_type, [])` (the user documents stored by the
routes only carry the three interaction-log list fields). -/
def getLog {K : Type} (u : UserDoc K) (t : String) : List (InteractionEntry K) :=
  if t = "likes" then u.likes
  else if t = "saves" then u.saves
  else if t = "visits" then u.visits
  else []

/-- `get_events_from_user` of `cf_aux.py`: every interacted item of the user,
tagged with the interaction type and its strength weight. -/
def get_events_from_user {K : Type} [LinearOrderedField K]
    (find_one : String → Option (UserDoc K)) (user_id : String)
    (interaction_types : List String) : List (String × String × K) :=
  match find_one user_id with
  | none => []
  | some u =>
    (interaction_types.map (fun t =>
      (getLog u t).map (fun a => (a.id, t, cf_interaction_weight t)))).flatten

/-- `calculate_user_vector` of `cf_aux.py`: use the vector stored on the user
document when present and non-empty, otherwise recompute from scratch
(which raises for an unknown user). -/
noncomputable def calculate_user_vector (find_one : String → Option (UserDoc ℝ))
    (item_vec : String → List ℝ) (now : ℝ) (user_id : String) :
    Except String (Option (List ℝ) × ℝ) :=
  let recalc : Except String (Option (List ℝ) × ℝ) :=
    (get_all_user_interactions find_one item_vec user_id).map
      (fun t => get_full_recalc_user_vector t.1 t.2.1 t.2.2 now FULL_RECALC_LAMBDA_DEFAULT)
  match find_one user_id with
  | none => recalc
  | some u =>
    match u.vector with
    | none => recalc
    | some v => if v = [] then recalc else .ok (some v, u.total_weight)

/-- The score-accumulation loop of `get_collaborative_recommendations`:
`score[item] += similarity × interaction_weight` over every event of every
similar user, skipping excluded item ids. -/
def collab_event_scores {K : Type} [LinearOrderedField K]
    (find_one : String → Option (UserDoc K)) (excluded_event_ids : List String)
    (similar : List (String × K)) : List (String × K) :=
  similar.foldl (fun d p =>
    (get_events_from_user find_one p.1 ["likes", "saves", "visits"]).foldl
      (fun d ev =>
        if ev.1 ∈ excluded_event_ids then d
        else dictAdd d ev.1 (p.2 * ev.2.2)) d) []

/-- The aggregation / exclusion / sorting stage of
`get_collaborative_recommendations` (`cf_aux.py` lines 287-330), given the
already-retrieved similar-user list. -/
def collab_aggregate_sorted {K : Type} [LinearOrderedField K]
    (find_one : String → Option (UserDoc K)) (user_id : String)
    (similar_users : List (String × K)) (n : ℕ) (min_similarity : K)
    (exclude_interacted : Bool) : List (String × K) :=
  let excluded_event_ids :=
    if exclude_interacted then get_user_seen_event_ids find_one user_id else []
  let similar := similar_users.filter (fun p => min_similarity ≤ p.2)
  if similar = [] then []
  else
    (sortByScoreDesc (collab_event_scores find_one excluded_event_ids similar)).take n

/-- `get_collaborative_recommendations` of `cf_aux.py`: compute the user
vector (propagating the unknown-user error), return `[]` when the user has
no usable vector, otherwise aggregate the similar users' interactions.
`similar_users_of` abstracts the `$vectorSearch` call of
`get_top_similar_users`. -/
noncomputable def get_collaborative_recommendations
    (find_one : String → Option (UserDoc ℝ)) (item_vec : String → List ℝ)
    (similar_users_of : List ℝ → List (String × ℝ)) (now : ℝ) (user_id : String)
    (n : ℕ) (min_similarity : ℝ) (exclude_interacted : Bool) :
    Except String (List (String × ℝ)) :=
  match calculate_user_vector find_one item_vec now user_id with
  | .error e => .error e
  | .ok (none, _) => .ok []
  | .ok (some user_vector, _) =>
    .ok (collab_aggregate_sorted find_one user_id (similar_users_of user_vector) n
          min_similarity exclude_interacted)

/-! ## `cf_aux.py`: min-max normalization and weighted hybrid blend -/

/-- `max(d.values())` (dict values are traversed in insertion order).
`max` of an empty dict raises in Python; every call site below is guarded by
a non-emptiness check, so the `[]` case is arbitrary. -/
def maxVal {K : Type} [LinearOrderedField K] : List (String × K) → K
  | [] => 0
  | p :: d => (d.map Prod.snd).foldl max p.2

/-- `min(d.values())` (same guard remark as `maxVal`). -/
def minVal {K : Type} [LinearOrderedField K] : List (String × K) → K
  | [] => 0
  | p :: d => (d.map Prod.snd).foldl min p.2

/-- Min-max scaling of a score dict as in `get_hybrid_recommendations_cf`:
`(score - min) / range` with the range treated as 1 when all scores
coincide.  Empty dicts are left untouched (guarded by `if cf_recs:`). -/
def minmaxNormalize {K : Type} [LinearOrderedField K] :
    List (String × K) → List (String × K)
  | [] => []
  | p :: d =>
    let mx := maxVal (p :: d)
    let mn := minVal (p :: d)
    let rng := if mx ≠ mn then mx - mn else 1
    (p :: d).map (fun q => (q.1, (q.2 - mn) / rng))

/-- The combination stage of `get_hybrid_recommendations_cf` (`cf_aux.py`
lines 371-406), given the two fetched score dicts: min-max normalize each
non-empty set, weight, sum over the union of ids, sort descending,
truncate. -/
def get_hybrid_recommendations_cf {K : Type} [LinearOrderedField K]
    (cf_recs content_recs : List (String × K)) (n : ℕ)
    (cf_weight content_weight : K) : List (String × K) :=
  let all_event_ids := pyDedup (keys cf_recs ++ keys content_recs)
  if all_event_ids = [] then []
  else
    let cf_n := minmaxNormalize cf_recs
    let content_n := minmaxNormalize content_recs
    let hybrid_scores := all_event_ids.map (fun event_id =>
      (event_id, lookupVal cf_n event_id * cf_weight +
                 lookupVal content_n event_id * content_weight))
    (sortByScoreDesc hybrid_scores).take n

/-! ## `cold_start.py`: cold-start generator

The category/tag database queries (`get_related_items_for_preference`,
`get_diverse_items`) and `random.shuffle` are external effects; they are
passed in as abstract functions.  `int(n * 0.7)` and the floor divisions are
modelled in exact integer arithmetic. -/

/-- `generate_cold_start_recommendations` of `cold_start.py`: gather items
per preference (70% budget), top up with diverse items, deduplicate
(`dict.fromkeys`), shuffle, truncate to the requested size. -/
def generate_cold_start_recommendations
    (getRelated : String → ℤ → List String)
    (getDiverse : ℤ → List String → List String)
    (shuffle : List String → List String)
    (user_preferences : List String) (n_recommendations : ℕ) : List String :=
  let n_preference_items : ℤ := (7 * (n_recommendations : ℤ)) / 10
  let all_recommendations : List String :=
    if user_preferences ≠ [] then
      let items_per_preference := n_preference_items / (user_preferences.length : ℤ)
      (user_preferences.map (fun p => getRelated p items_per_preference)).flatten
    else []
  let n_diverse_items : ℤ := (n_recommendations : ℤ) - (all_recommendations.length : ℤ)
  let diverse_items := getDiverse n_diverse_items all_recommendations
  let all_recommendations := all_recommendations ++ diverse_items
  (shuffle (pyDedup all_recommendations)).take n_recommendations

/-! ## `unified_recommender.py`: the orchestrator -/

/-- `cold_start_threshold` of `UnifiedRecommender`. -/
def cold_start_threshold : ℕ := 5

/-- The external services the orchestrator consumes: the cold-start
database queries and shuffle, the content-based vector search
(`get_user_vector` + `get_top_similar_items`, yielding an ordered id
list), and the collaborative hybrid backend
(`hybrid_recommendations` of `cf_aux.py`, raising on unknown users). -/
structure OrchestratorEnv (K : Type) where
  getRelated : String → ℤ → List String
  getDiverse : ℤ → List String → List String
  shuffle : List String → List String
  contentIds : String → ℕ → List String
  cfResults : String → ℕ → Except String (List (String × K))

/-- `get_user_interaction_count`: `|likes| + |saves| + |visits|`, `0` when
the user id matches no document. -/
def get_user_interaction_count {K : Type} (find_one : String → Option (UserDoc K))
    (user_id : String) : ℕ :=
  match find_one user_id with
  | none => 0
  | some u => u.likes.length + u.saves.length + u.visits.length

/-- `is_cold_start_user`. -/
def is_cold_start_user {K : Type} (find_one : String → Option (UserDoc K))
    (user_id : String) : Bool :=
  get_user_interaction_count find_one user_id < cold_start_threshold

/-- `_get_cold_start_recommendations`: read the user's preferences
(`[]` when absent) and delegate to the cold-start generator. -/
def _get_cold_start_recommendations {K : Type} (find_one : String → Option (UserDoc K))
    (env : OrchestratorEnv K) (user_id : String) (n_recommendations : ℕ) : List String :=
  let preferences := match find_one user_id with
    | some u => u.preferences
    | none => []
  generate_cold_start_recommendations env.getRelated env.getDiverse env.shuffle
    preferences n_recommendations

/-- `_get_content_based_recommendations`: position-decayed scores
`(1 - i * 0.1 / len) * 0.4` assigned into a dict over the returned ids. -/
def content_scores_from_ids {K : Type} [LinearOrderedField K]
    (ids : List String) : List (String × K) :=
  ids.enum.foldl (fun d p =>
    dictSet d p.2 ((1 - ((p.1 : K) * 0.1 / (ids.length : K))) * 0.4)) []

/-- `_get_collaborative_recommendations` (score post-processing): divide by
the maximum score (1.0 when the result set is empty) and weight by 0.6.
The whole computation sits inside a `try`/`except` returning the empty
dict: this catches both an error from the collaborative backend and the
`ZeroDivisionError` that `score / max_score` raises on the first loop
iteration when the result set is non-empty with maximum score exactly 0
(Python raises on float division by `0.0`). -/
def unified_cf_scores {K : Type} [LinearOrderedField K]
    (cf_results : Except String (List (String × K))) : List (String × K) :=
  match cf_results with
  | .error _ => []
  | .ok res =>
    let max_score := if res ≠ [] then maxVal res else 1
    if res ≠ [] ∧ max_score = 0 then []
    else res.foldl (fun d p => dictSet d p.1 (p.2 / max_score * 0.6)) []

/-- `_combine_recommendations`: sum the two score dicts per item id, sort
descending by combined score, return the top `n` ids. -/
def _combine_recommendations {K : Type} [LinearOrderedField K]
    (content_scores cf_scores : List (String × K)) (n_recommendations : ℕ) :
    List String :=
  let combined_scores :=
    (content_scores ++ cf_scores).foldl (fun d p => dictAdd d p.1 p.2) []
  (((sortByScoreDesc combined_scores).take n_recommendations).map Prod.fst)

/-- `_get_hybrid_recommendations`: fetch both score sets (double budget)
and combine. -/
def _get_hybrid_recommendations {K : Type} [LinearOrderedField K]
    (env : OrchestratorEnv K) (user_id : String) (n_recommendations : ℕ) :
    List String :=
  let content_recs : List (String × K) :=
    content_scores_from_ids (env.contentIds user_id (n_recommendations * 2))
  let cf_recs := unified_cf_scores (env.cfResults user_id (n_recommendations * 2))
  _combine_recommendations content_recs cf_recs n_recommendations

/-- `generate_unified_recommendations`: cold-start users are served by the
cold-start generator, the rest by the hybrid path. -/
def generate_unified_recommendations {K : Type} [LinearOrderedField K]
    (find_one : String → Option (UserDoc K)) (env : OrchestratorEnv K)
    (user_id : String) (n_recommendations : ℕ) : List String :=
  if is_cold_start_user find_one user_id then
    _get_cold_start_recommendations find_one env user_id n_recommendations
  else
    _get_hybrid_recommendations env user_id n_recommendations

/-! ## Concrete evaluation inputs -/

/-- A demo collection over `ℚ`: one user with three logged interactions
(a cold-start user). -/
def demo_find_one : String → Option (UserDoc ℚ) := fun user_id =>
  if user_id = "u1" then
    some ⟨[⟨"a", 0⟩, ⟨"b", 0⟩], [⟨"c", 0⟩], [], ["cultura"], [], none, 0⟩
  else none

/-- A demo collection over `ℚ`: one user with five logged interactions
(a warm user). -/
def warm_find_one : String → Option (UserDoc ℚ) := fun user_id =>
  if user_id = "w" then
    some ⟨[⟨"a", 0⟩, ⟨"b", 0⟩, ⟨"c", 0⟩], [⟨"d", 0⟩], [⟨"e", 0⟩], [], [], none, 0⟩
  else none

/-- A demo environment over `ℚ` with an identity shuffle. -/
def demo_env : OrchestratorEnv ℚ :=
  ⟨fun _ _ => ["p1", "p2"], fun _ _ => ["d1", "p1"], id,
   fun _ _ => ["c1", "c2"], fun _ _ => .ok [("e1", 1), ("e2", 2)]⟩

/-- A demo collection over `ℚ` where the querying user "u" has liked item
"x" (which is not in their `seen` list, left empty) and the neighbouring
user "v" has liked "x" as well. -/
def cx_find_one : String → Option (UserDoc ℚ) := fun user_id =>
  if user_id = "u" then some ⟨[⟨"x", 0⟩], [], [], [], [], some [1], 1⟩
  else if user_id = "v" then some ⟨[⟨"x", 0⟩], [], [], [], [], none, 0⟩
  else none

/-- A user document over `ℝ` with empty interaction logs and no stored
vector. -/
noncomputable def emptyUserR : UserDoc ℝ := ⟨[], [], [], [], [], none, 0⟩

/-- A collection over `ℝ` containing only `emptyUserR` under id "e". -/
noncomputable def empty_user_find_one : String → Option (UserDoc ℝ) :=
  fun user_id => if user_id = "e" then some emptyUserR else none

/-! ## Supporting lemmas -/

/-! ### Lemmas about the dict model -/

theorem keys_dictAdd {K : Type} [Add K] (d : List (String × K)) (k : String) (v : K) :
    keys (dictAdd d k v) = if k ∈ keys d then keys d else keys d ++ [k] := by
  induction d with
  | nil => simp [dictAdd, keys]
  | cons p d ih =>
    by_cases h : p.1 = k
    · simp [dictAdd, keys, h]
    · have h2 : ¬ k = p.1 := fun hk => h hk.symm
      simp only [keys, List.map_cons] at ih ⊢
      simp only [dictAdd, if_neg h, List.map_cons, List.mem_cons, h2, false_or]
      rw [ih]
      by_cases hk : k ∈ List.map Prod.fst d <;> simp [hk]

theorem nodup_keys_dictAdd {K : Type} [Add K] (d : List (String × K)) (k : String) (v : K)
    (h : (keys d).Nodup) : (keys (dictAdd d k v)).Nodup := by
  rw [keys_dictAdd]
  by_cases hk : k ∈ keys d
  · simpa [hk]
  · simpa [hk, List.nodup_append] using h

theorem mem_keys_dictAdd {K : Type} [Add K] (d : List (String × K)) (k k' : String) (v : K)
    (h : k' ∈ keys (dictAdd d k v)) : k' ∈ keys d ∨ k' = k := by
  rw [keys_dictAdd] at h
  by_cases hk : k ∈ keys d
  · rw [if_pos hk] at h; exact Or.inl h
  · rw [if_neg hk] at h
    rcases List.mem_append.1 h with h | h
    · exact Or.inl h
    · exact Or.inr (List.mem_singleton.1 h)

theorem lookupVal_dictAdd {K : Type} [AddCommMonoid K] (d : List (String × K))
    (k k' : String) (v : K) :
    lookupVal (dictAdd d k v) k' = lookupVal d k' + (if k' = k then v else 0) := by
  induction d with
  | nil =>
    simp only [dictAdd, lookupVal, zero_add]
    by_cases h : k = k'
    · simp [h]
    · have h' : ¬ k' = k := fun hk => h hk.symm
      simp [h, h']
  | cons p d ih =>
    by_cases h : p.1 = k
    · subst h
      by_cases h2 : p.1 = k'
      · subst h2
        simp [dictAdd, lookupVal]
      · have h2' : ¬ k' = p.1 := fun hk => h2 hk.symm
        simp [dictAdd, lookupVal, h2, h2']
    · by_cases h2 : p.1 = k'
      · have h3 : ¬ k' = k := fun hk => h (h2.trans hk)
        simp [dictAdd, if_neg h, lookupVal, h2, h3]
      · simp [dictAdd, if_neg h, lookupVal, h2, ih]

theorem pyDedup_aux_nodup (l : List String) : ∀ acc : List String, acc.Nodup →
    (l.foldl (fun acc x => if x ∈ acc then acc else acc ++ [x]) acc).Nodup := by
  induction l with
  | nil => intro acc hacc; simpa using hacc
  | cons a l ih =>
    intro acc hacc
    rw [List.foldl_cons]
    by_cases h : a ∈ acc
    · rw [if_pos h]; exact ih acc hacc
    · rw [if_neg h]
      refine ih (acc ++ [a]) (hacc.append (List.nodup_singleton a) ?_)
      intro x hx hxa
      rw [List.mem_singleton] at hxa
      subst hxa
      exact h hx

theorem pyDedup_nodup (l : List String) : (pyDedup l).Nodup :=
  pyDedup_aux_nodup l [] List.nodup_nil

theorem pyDedup_aux_subset (l : List String) (acc : List String) :
    ∀ x ∈ l.foldl (fun acc x => if x ∈ acc then acc else acc ++ [x]) acc,
      x ∈ acc ∨ x ∈ l := by
  induction l generalizing acc with
  | nil => intro x hx; exact Or.inl hx
  | cons a l ih =>
    intro x hx
    by_cases h : a ∈ acc
    · rw [List.foldl_cons, if_pos h] at hx
      rcases ih acc x hx with h' | h'
      · exact Or.inl h'
      · exact Or.inr (List.mem_cons_of_mem _ h')
    · rw [List.foldl_cons, if_neg h] at hx
      rcases ih (acc ++ [a]) x hx with h' | h'
      · rcases List.mem_append.1 h' with h'' | h''
        · exact Or.inl h''
        · rw [List.mem_singleton] at h''
          subst h''
          exact Or.inr (List.mem_cons_self _ _)
      · exact Or.inr (List.mem_cons_of_mem _ h')

theorem pyDedup_subset (l : List String) : ∀ x ∈ pyDedup l, x ∈ l := by
  intro x hx
  rcases pyDedup_aux_subset l [] x hx with h | h
  · simp at h
  · exact h

theorem sortByScoreDesc_perm {K : Type} [LinearOrder K] (l : List (String × K)) :
    (sortByScoreDesc l).Perm l :=
  List.mergeSort_perm l _

theorem sortByScoreDesc_sorted {K : Type} [LinearOrder K] (l : List (String × K)) :
    (sortByScoreDesc l).Pairwise (fun a b => b.2 ≤ a.2) := by
  have h := @List.sorted_mergeSort (String × K) (fun a b => decide (b.2 ≤ a.2))
    (fun a b c hab hbc => by
      simp only [decide_eq_true_eq] at *
      exact le_trans hbc hab)
    (fun a b => by
      simp only [Bool.or_eq_true, decide_eq_true_eq]
      exact le_total b.2 a.2) l
  exact h.imp (fun {a b} hab => by simpa using hab)

theorem norm2_nonneg (v : List ℝ) : 0 ≤ norm2 v := by
  refine List.sum_nonneg ?_
  intro x hx
  rcases List.mem_map.1 hx with ⟨y, _, rfl⟩
  exact mul_self_nonneg y

theorem norm_nonneg' (v : List ℝ) : 0 ≤ norm v := Real.sqrt_nonneg _

theorem norm2_eq_zero_iff (v : List ℝ) : norm2 v = 0 ↔ ∀ x ∈ v, x = 0 := by
  induction v with
  | nil => simp [norm2]
  | cons a v ih =>
    simp only [norm2, List.map_cons, List.sum_cons] at *
    constructor
    · intro h
      have ha : 0 ≤ a * a := mul_self_nonneg a
      have hv : 0 ≤ (v.map (fun x => x * x)).sum := norm2_nonneg v
      have h1 : a * a = 0 := by linarith [(by linarith : a * a ≤ 0)]
      have h2 : (v.map (fun x => x * x)).sum = 0 := by linarith
      intro x hx
      rcases List.mem_cons.1 hx with rfl | hx
      · exact mul_self_eq_zero.1 h1
      · exact ih.1 h2 x hx
    · intro h
      have ha : a = 0 := h a (List.mem_cons_self _ _)
      have hv : (v.map (fun x => x * x)).sum = 0 :=
        ih.2 (fun x hx => h x (List.mem_cons_of_mem _ hx))
      simp [ha, hv]

theorem norm_eq_zero_iff (v : List ℝ) : norm v = 0 ↔ ∀ x ∈ v, x = 0 := by
  rw [norm, Real.sqrt_eq_zero (norm2_nonneg v), norm2_eq_zero_iff]

theorem norm2_smul (c : ℝ) (v : List ℝ) : norm2 (smul c v) = c ^ 2 * norm2 v := by
  induction v with
  | nil => simp [smul, norm2]
  | cons a v ih =>
    simp only [smul, norm2, List.map_cons, List.sum_cons] at *
    rw [ih]
    ring

theorem norm_smul' (c : ℝ) (v : List ℝ) : norm (smul c v) = |c| * norm v := by
  rw [norm, norm2_smul, Real.sqrt_mul (sq_nonneg c), Real.sqrt_sq_eq_abs, norm]

theorem map_div_eq_smul (v : List ℝ) (c : ℝ) : v.map (fun x => x / c) = smul c⁻¹ v := by
  simp [smul, div_eq_inv_mul]

/-- Dividing a vector by its (non-zero) norm yields a unit vector. -/
theorem norm_map_div_norm (v : List ℝ) (h : norm v ≠ 0) :
    norm (v.map (fun x => x / norm v)) = 1 := by
  have hpos : 0 < norm v := lt_of_le_of_ne (norm_nonneg' v) (Ne.symm h)
  rw [map_div_eq_smul, norm_smul', abs_inv, abs_of_pos hpos, inv_mul_cancel₀ h]

/-! ## Claim theorems -/

/-- C1: the orchestrator computes `interaction_count` as
`|likes| + |saves| + |visits|`; below the cold-start threshold 5,
`generate_unified_recommendations` is exactly the cold-start generator's
output and is independent of the content-based and collaborative backends
(it never invokes them); at or above the threshold it takes the hybrid
path. -/
theorem C1_phase_selection {K : Type} [LinearOrderedField K]
    (find_one : String → Option (UserDoc K)) (env : OrchestratorEnv K)
    (user_id : String) (n : ℕ) :
    (∀ u, find_one user_id = some u →
      get_user_interaction_count find_one user_id =
        u.likes.length + u.saves.length + u.visits.length) ∧
    (get_user_interaction_count find_one user_id < cold_start_threshold →
      generate_unified_recommendations find_one env user_id n =
        _get_cold_start_recommendations find_one env user_id n ∧
      ∀ env' : OrchestratorEnv K, env'.getRelated = env.getRelated →
        env'.getDiverse = env.getDiverse → env'.shuffle = env.shuffle →
        generate_unified_recommendations find_one env' user_id n =
          generate_unified_recommendations find_one env user_id n) ∧
    (cold_start_threshold ≤ get_user_interaction_count find_one user_id →
      generate_unified_recommendations find_one env user_id n =
        _get_hybrid_recommendations env user_id n) := by
  refine ⟨?_, ?_, ?_⟩
  · intro u hu
    simp [get_user_interaction_count, hu]
  · intro h
    have hb : is_cold_start_user find_one user_id = true := by
      simp [is_cold_start_user, h]
    refine ⟨by simp [generate_unified_recommendations, hb], ?_⟩
    intro env' h1 h2 h3
    simp [generate_unified_recommendations, hb, _get_cold_start_recommendations,
      h1, h2, h3]
  · intro h
    have hb : is_cold_start_user find_one user_id = false := by
      simp [is_cold_start_user, Nat.not_lt.2 h]
    simp [generate_unified_recommendations, hb]

/-- Witness for C1 at a concrete cold-start user (3 interactions). -/
theorem C1_phase_selection_witness :
    get_user_interaction_count demo_find_one "u1" < cold_start_threshold ∧
    generate_unified_recommendations demo_find_one demo_env "u1" 10 =
      _get_cold_start_recommendations demo_find_one demo_env "u1" 10 :=
  ⟨by decide,
   ((C1_phase_selection demo_find_one demo_env "u1" 10).2.1 (by decide)).1⟩

/-- C10: `cosine_similarity` is a total function; it returns exactly 0 when
either input has L2 norm 0 (in particular when either input is a zero
vector), and `dot(a,b) / (|a| * |b|)` otherwise. -/
theorem C10_cosine_similarity_total (a b : List ℝ) :
    (norm a = 0 ∨ norm b = 0 → cosine_similarity a b = 0) ∧
    ((∀ x ∈ a, x = 0) → cosine_similarity a b = 0) ∧
    (norm a ≠ 0 → norm b ≠ 0 →
      cosine_similarity a b = dot a b / (norm a * norm b)) := by
  refine ⟨?_, ?_, ?_⟩
  · intro h
    simp [cosine_similarity, h]
  · intro h
    have hz : norm a = 0 := (norm_eq_zero_iff a).2 h
    simp [cosine_similarity, hz]
  · intro ha hb
    have : ¬ (norm a = 0 ∨ norm b = 0) := by
      rintro (h | h)
      · exact ha h
      · exact hb h
    simp [cosine_similarity, this]

/-- Witness for C10: the zero vector against `[1, 2]`. -/
theorem C10_cosine_similarity_total_witness :
    cosine_similarity [0, 0] [1, 2] = 0 :=
  (C10_cosine_similarity_total [0, 0] [1, 2]).2.1 (by
    intro x hx
    rcases List.mem_cons.1 hx with rfl | hx
    · rfl
    · rcases List.mem_cons.1 hx with rfl | hx
      · rfl
      · cases hx)

/-- C3: the content-based update returns
`normalize((1 - 0.15) * u + 0.15 * weight(kind) * v)` with the fixed weight
table view=0.1, click=0.2, share=0.3, save=0.5, visit=0.7, like=0.8; a
non-zero pre-normalization vector yields a unit vector, a zero one is
passed through unnormalized. -/
theorem C3_ema_update_normalized (user_vec item_vec : List ℝ) (k : String) :
    (∀ alpha : ℝ, update_user_vector user_vec item_vec k alpha =
      normalizeVec (emaVec user_vec item_vec k alpha)) ∧
    ((contentWeightOf "view" : ℝ) = 0.1 ∧ (contentWeightOf "click" : ℝ) = 0.2 ∧
     (contentWeightOf "share" : ℝ) = 0.3 ∧ (contentWeightOf "save" : ℝ) = 0.5 ∧
     (contentWeightOf "visit" : ℝ) = 0.7 ∧ (contentWeightOf "like" : ℝ) = 0.8 ∧
     LEARNING_RATE = 0.15) ∧
    ((∃ x ∈ emaVec user_vec item_vec k LEARNING_RATE, x ≠ 0) →
      norm (update_user_vector user_vec item_vec k LEARNING_RATE) = 1) ∧
    (norm (emaVec user_vec item_vec k LEARNING_RATE) = 0 →
      update_user_vector user_vec item_vec k LEARNING_RATE =
        emaVec user_vec item_vec k LEARNING_RATE) := by
  have hguard : ∀ alpha : ℝ, update_user_vector user_vec item_vec k alpha =
      normalizeVec (emaVec user_vec item_vec k alpha) := by
    intro alpha
    rw [update_user_vector, normalizeVec]
    rcases lt_or_eq_of_le (norm_nonneg' (emaVec user_vec item_vec k alpha)) with h | h
    · rw [if_pos h, if_neg h.ne']
    · rw [if_neg (by rw [← h]; exact lt_irrefl 0), if_pos h.symm]
  refine ⟨hguard, ?_, ?_, ?_⟩
  · refine ⟨?_, ?_, ?_, ?_, ?_, ?_, rfl⟩ <;> rfl
  · rintro ⟨x, hx, hx0⟩
    have hnz : norm (emaVec user_vec item_vec k LEARNING_RATE) ≠ 0 := by
      intro h
      exact hx0 ((norm_eq_zero_iff _).1 h x hx)
    rw [hguard, normalizeVec, if_neg hnz]
    exact norm_map_div_norm _ hnz
  · intro h
    rw [hguard, normalizeVec, if_pos h]

/-- Witness for C3: a `like` on `[0, 1]` starting from `[1, 0]` yields a
unit-norm user vector. -/
theorem C3_ema_update_normalized_witness :
    norm (update_user_vector [1, 0] [0, 1] "like" LEARNING_RATE) = 1 := by
  refine (C3_ema_update_normalized [1, 0] [0, 1] "like").2.2.1 ?_
  have h : emaVec [1, 0] [0, 1] "like" LEARNING_RATE =
      [(1 - 0.15) * 1 + 0.15 * contentWeightOf "like" * 0,
       (1 - 0.15) * 0 + 0.15 * contentWeightOf "like" * 1] := by
    simp [emaVec, vadd, smul, LEARNING_RATE]
  refine ⟨(1 - 0.15) * 1 + 0.15 * contentWeightOf "like" * 0, ?_, ?_⟩
  · rw [h]
    exact List.mem_cons_self _ _
  · have hw : (contentWeightOf "like" : ℝ) = 0.8 := rfl
    rw [hw]
    norm_num

theorem nodup_keys_foldl_dictAdd {K : Type} [Add K] (l : List (String × K)) :
    ∀ d : List (String × K), (keys d).Nodup →
      (keys (l.foldl (fun d p => dictAdd d p.1 p.2) d)).Nodup := by
  induction l with
  | nil => intro d hd; simpa using hd
  | cons p l ih =>
    intro d hd
    rw [List.foldl_cons]
    exact ih _ (nodup_keys_dictAdd d p.1 p.2 hd)

theorem _combine_recommendations_length_nodup {K : Type} [LinearOrderedField K]
    (content_scores cf_scores : List (String × K)) (n : ℕ) :
    (_combine_recommendations content_scores cf_scores n).length ≤ n ∧
    (_combine_recommendations content_scores cf_scores n).Nodup := by
  rw [_combine_recommendations]
  constructor
  · rw [List.length_map, List.length_take]
    exact min_le_left _ _
  · have hkeys : (keys ((content_scores ++ cf_scores).foldl
        (fun d p => dictAdd d p.1 p.2) [])).Nodup :=
      nodup_keys_foldl_dictAdd _ [] List.nodup_nil
    have hperm := sortByScoreDesc_perm ((content_scores ++ cf_scores).foldl
        (fun d p => dictAdd d p.1 p.2) [])
    have hsorted : ((sortByScoreDesc ((content_scores ++ cf_scores).foldl
        (fun d p => dictAdd d p.1 p.2) [])).map Prod.fst).Nodup :=
      (hperm.map Prod.fst).symm.nodup hkeys
    rw [List.map_take]
    exact List.Nodup.sublist (List.take_sublist _ _) hsorted

theorem generate_cold_start_length_nodup
    (getRelated : String → ℤ → List String)
    (getDiverse : ℤ → List String → List String)
    (shuffle : List String → List String)
    (prefs : List String) (n : ℕ)
    (hsh : ∀ l : List String, (shuffle l).Perm l) :
    (generate_cold_start_recommendations getRelated getDiverse shuffle prefs n).length ≤ n ∧
    (generate_cold_start_recommendations getRelated getDiverse shuffle prefs n).Nodup := by
  rw [generate_cold_start_recommendations]
  constructor
  · rw [List.length_take]
    exact min_le_left _ _
  · exact List.Nodup.sublist (List.take_sublist _ _)
      ((hsh _).symm.nodup (pyDedup_nodup _))

/-- C2: on both the cold-start and the hybrid path, the generated
recommendation list has at most `target_count` entries and no duplicate
item ids (assuming only that `random.shuffle` permutes its input). -/
theorem C2_length_le_and_nodup {K : Type} [LinearOrderedField K]
    (find_one : String → Option (UserDoc K)) (env : OrchestratorEnv K)
    (user_id : String) (n : ℕ)
    (hshuffle : ∀ l : List String, (env.shuffle l).Perm l) :
    (generate_unified_recommendations find_one env user_id n).length ≤ n ∧
    (generate_unified_recommendations find_one env user_id n).Nodup := by
  rw [generate_unified_recommendations]
  by_cases hc : is_cold_start_user find_one user_id
  · rw [if_pos hc, _get_cold_start_recommendations]
    exact generate_cold_start_length_nodup _ _ _ _ _ hshuffle
  · rw [if_neg hc, _get_hybrid_recommendations]
    exact _combine_recommendations_length_nodup _ _ _

/-- Witness for C2 at the concrete cold-start user and identity shuffle. -/
theorem C2_length_le_and_nodup_witness :
    (generate_unified_recommendations demo_find_one demo_env "u1" 2).length ≤ 2 ∧
    (generate_unified_recommendations demo_find_one demo_env "u1" 2).Nodup :=
  C2_length_le_and_nodup demo_find_one demo_env "u1" 2 (fun l => List.Perm.refl l)

/-- Counterexample for C8: at the collaborative strength table of
`cf_aux.py` (`get_events_from_user`), the unknown kind `"shares"` is mapped
to the default weight 1.0, which is NOT lower than or equal to every listed
weight: the listed `visits` strength is 0.5 < 1.0.  So the claim that every
kind-to-strength site defaults unknown kinds to a minimal weight is false. -/
theorem C8_counterexample :
    ¬ ("shares" = "likes" ∨ "shares" = "saves" ∨ "shares" = "visits") ∧
    (cf_interaction_weight "shares" : ℚ) = 1 ∧
    (VISIT_STRENGTH : ℚ) = 1 / 2 ∧
    ¬ ((cf_interaction_weight "shares" : ℚ) ≤ VISIT_STRENGTH) := by
  have hshares : (cf_interaction_weight "shares" : ℚ) = 1 := by
    rw [cf_interaction_weight, if_neg (by decide : ¬ ("shares" = "likes")),
      if_neg (by decide : ¬ ("shares" = "saves")),
      if_neg (by decide : ¬ ("shares" = "visits")), Option.getD_none]
    norm_num
  refine ⟨by decide, hshares, ?_, ?_⟩
  · rw [VISIT_STRENGTH]; norm_num
  · rw [hshares, VISIT_STRENGTH]; norm_num

/-- C8 (amended): unknown interaction kinds are mapped to a fixed default
weight and processed rather than rejected at all three lookup sites; the
default is the minimal listed weight at the content-based EMA table (0.1)
and below every listed weight at the route-level table (0.3), but the
collaborative strength table of `cf_aux.py` defaults to 1.0 (the `likes`
strength), which exceeds the listed `visits` strength 0.5. -/
theorem C8_amended_default_weights {K : Type} [LinearOrderedField K] :
    (∀ t : String, (INTERACTION_WEIGHTS t : Option K) = none →
      (contentWeightOf t : K) = 0.1) ∧
    (∀ t : String, ∀ w : K, INTERACTION_WEIGHTS t = some w → (0.1 : K) ≤ w) ∧
    (∀ t : String, (ROUTE_INTERACTION_WEIGHTS t : Option K) = none →
      (routeWeightOf t : K) = 0.3) ∧
    (∀ t : String, ∀ w : K, ROUTE_INTERACTION_WEIGHTS t = some w → (0.3 : K) ≤ w) ∧
    (∀ t : String, t ≠ "likes" → t ≠ "saves" → t ≠ "visits" →
      (cf_interaction_weight t : K) = LIKE_STRENGTH) ∧
    ¬ ((LIKE_STRENGTH : K) ≤ VISIT_STRENGTH) := by
  refine ⟨?_, ?_, ?_, ?_, ?_, ?_⟩
  · intro t ht
    rw [contentWeightOf, ht, Option.getD_none]
  · intro t w hw
    rw [INTERACTION_WEIGHTS] at hw
    split_ifs at hw <;> rw [Option.some.injEq] at hw <;> rw [← hw] <;> norm_num
  · intro t ht
    rw [routeWeightOf, ht, Option.getD_none]
  · intro t w hw
    rw [ROUTE_INTERACTION_WEIGHTS] at hw
    split_ifs at hw <;> rw [Option.some.injEq] at hw <;> rw [← hw] <;> norm_num
  · intro t h1 h2 h3
    rw [cf_interaction_weight, if_neg h1, if_neg h2, if_neg h3, Option.getD_none,
      LIKE_STRENGTH]
  · rw [LIKE_STRENGTH, VISIT_STRENGTH]
    norm_num

/-- Witness for C8 (amended) at the concrete unknown kind `"shares"`. -/
theorem C8_amended_default_weights_witness :
    (contentWeightOf "shares" : ℚ) = 0.1 ∧
    (routeWeightOf "shares" : ℚ) = 0.3 ∧
    (cf_interaction_weight "shares" : ℚ) = LIKE_STRENGTH :=
  ⟨(@C8_amended_default_weights ℚ _).1 "shares" (by decide),
   (@C8_amended_default_weights ℚ _).2.2.1 "shares" (by decide),
   (@C8_amended_default_weights ℚ _).2.2.2.2.1 "shares"
     (by decide) (by decide) (by decide)⟩

/-- Counterexample for C9: `get_user_interaction_count` does NOT report the
absence of an unknown user — it silently returns 0, the orchestrator
classifies the unknown user as cold-start and produces a recommendation
list instead of propagating a NotFound error. -/
theorem C9_counterexample :
    get_user_interaction_count (fun _ => (none : Option (UserDoc ℚ))) "ghost" = 0 ∧
    is_cold_start_user (fun _ => (none : Option (UserDoc ℚ))) "ghost" = true ∧
    generate_unified_recommendations (fun _ => (none : Option (UserDoc ℚ))) demo_env
      "ghost" 3 = ["d1", "p1"] := by
  refine ⟨rfl, rfl, by decide⟩

/-- C9 (amended): only the collaborative interaction fetch
(`get_all_user_interactions`) reports an unknown user id to its caller
(`ValueError("user not found: ...")`); the orchestrator's
`get_user_interaction_count` instead returns 0 for an unknown user, so
`generate_unified_recommendations` silently serves the cold-start path
rather than propagating a NotFound error. -/
theorem C9_amended_unknown_user {K : Type} [LinearOrderedField K]
    (find_one : String → Option (UserDoc K)) (item_vec : String → List K)
    (env : OrchestratorEnv K) (user_id : String) (n : ℕ)
    (h : find_one user_id = none) :
    get_all_user_interactions find_one item_vec user_id =
      .error ("user not found: " ++ user_id) ∧
    get_user_interaction_count find_one user_id = 0 ∧
    generate_unified_recommendations find_one env user_id n =
      _get_cold_start_recommendations find_one env user_id n := by
  refine ⟨?_, ?_, ?_⟩
  · simp [get_all_user_interactions, h]
  · simp [get_user_interaction_count, h]
  · have hc : is_cold_start_user find_one user_id = true := by
      simp [is_cold_start_user, get_user_interaction_count, h, cold_start_threshold]
    simp [generate_unified_recommendations, hc]

/-- Witness for C9 (amended) at a concrete empty collection. -/
theorem C9_amended_unknown_user_witness :
    get_all_user_interactions (fun _ => (none : Option (UserDoc ℚ))) (fun _ => [])
      "ghost" = .error ("user not found: " ++ "ghost") ∧
    generate_unified_recommendations (fun _ => (none : Option (UserDoc ℚ))) demo_env
      "ghost" 3 =
      _get_cold_start_recommendations (fun _ => (none : Option (UserDoc ℚ))) demo_env
        "ghost" 3 :=
  ⟨(C9_amended_unknown_user (fun _ => none) (fun _ => []) demo_env "ghost" 3 rfl).1,
   (C9_amended_unknown_user (fun _ => none) (fun _ => []) demo_env "ghost" 3 rfl).2.2⟩

theorem le_foldl_max {K : Type} [LinearOrder K] (l : List K) :
    ∀ a : K, a ≤ l.foldl max a := by
  induction l with
  | nil => intro a; simp
  | cons b l ih =>
    intro a
    rw [List.foldl_cons]
    exact le_trans (le_max_left a b) (ih _)

theorem mem_le_foldl_max {K : Type} [LinearOrder K] (l : List K) :
    ∀ a : K, ∀ x ∈ l, x ≤ l.foldl max a := by
  induction l with
  | nil => intro a x hx; cases hx
  | cons b l ih =>
    intro a x hx
    rw [List.foldl_cons]
    rcases List.mem_cons.1 hx with rfl | hx
    · exact le_trans (le_max_right a x) (le_foldl_max l _)
    · exact ih _ x hx

theorem foldl_max_mem {K : Type} [LinearOrder K] (l : List K) :
    ∀ a : K, l.foldl max a ∈ a :: l := by
  induction l with
  | nil => intro a; simp
  | cons b l ih =>
    intro a
    rw [List.foldl_cons]
    rcases List.mem_cons.1 (ih (max a b)) with h | h
    · rw [h]
      rcases max_choice a b with h2 | h2 <;> rw [h2]
      · exact List.mem_cons_self _ _
      · exact List.mem_cons_of_mem _ (List.mem_cons_self _ _)
    · exact List.mem_cons_of_mem _ (List.mem_cons_of_mem _ h)

theorem foldl_min_le {K : Type} [LinearOrder K] (l : List K) :
    ∀ a : K, l.foldl min a ≤ a := by
  induction l with
  | nil => intro a; simp
  | cons b l ih =>
    intro a
    rw [List.foldl_cons]
    exact le_trans (ih _) (min_le_left a b)

theorem foldl_min_le_mem {K : Type} [LinearOrder K] (l : List K) :
    ∀ a : K, ∀ x ∈ l, l.foldl min a ≤ x := by
  induction l with
  | nil => intro a x hx; cases hx
  | cons b l ih =>
    intro a x hx
    rw [List.foldl_cons]
    rcases List.mem_cons.1 hx with rfl | hx
    · exact le_trans (foldl_min_le l _) (min_le_right a x)
    · exact ih _ x hx

theorem foldl_min_mem {K : Type} [LinearOrder K] (l : List K) :
    ∀ a : K, l.foldl min a ∈ a :: l := by
  induction l with
  | nil => intro a; simp
  | cons b l ih =>
    intro a
    rw [List.foldl_cons]
    rcases List.mem_cons.1 (ih (min a b)) with h | h
    · rw [h]
      rcases min_choice a b with h2 | h2 <;> rw [h2]
      · exact List.mem_cons_self _ _
      · exact List.mem_cons_of_mem _ (List.mem_cons_self _ _)
    · exact List.mem_cons_of_mem _ (List.mem_cons_of_mem _ h)

theorem le_maxVal {K : Type} [LinearOrderedField K] (p : String × K)
    (t : List (String × K)) :
    ∀ q ∈ p :: t, q.2 ≤ maxVal (p :: t) := by
  intro q hq
  rcases List.mem_cons.1 hq with rfl | hq
  · exact le_foldl_max _ _
  · exact mem_le_foldl_max _ _ _ (List.mem_map_of_mem Prod.snd hq)

theorem minVal_le {K : Type} [LinearOrderedField K] (p : String × K)
    (t : List (String × K)) :
    ∀ q ∈ p :: t, minVal (p :: t) ≤ q.2 := by
  intro q hq
  rcases List.mem_cons.1 hq with rfl | hq
  · exact foldl_min_le _ _
  · exact foldl_min_le_mem _ _ _ (List.mem_map_of_mem Prod.snd hq)

theorem maxVal_mem {K : Type} [LinearOrderedField K] (p : String × K)
    (t : List (String × K)) :
    ∃ q ∈ p :: t, q.2 = maxVal (p :: t) := by
  have h := foldl_max_mem (t.map Prod.snd) p.2
  rcases List.mem_cons.1 h with h | h
  · exact ⟨p, List.mem_cons_self _ _, h.symm⟩
  · rcases List.mem_map.1 h with ⟨q, hq, hq2⟩
    exact ⟨q, List.mem_cons_of_mem _ hq, hq2⟩

theorem minVal_mem {K : Type} [LinearOrderedField K] (p : String × K)
    (t : List (String × K)) :
    ∃ q ∈ p :: t, q.2 = minVal (p :: t) := by
  have h := foldl_min_mem (t.map Prod.snd) p.2
  rcases List.mem_cons.1 h with h | h
  · exact ⟨p, List.mem_cons_self _ _, h.symm⟩
  · rcases List.mem_map.1 h with ⟨q, hq, hq2⟩
    exact ⟨q, List.mem_cons_of_mem _ hq, hq2⟩

theorem minVal_le_maxVal {K : Type} [LinearOrderedField K] (p : String × K)
    (t : List (String × K)) : minVal (p :: t) ≤ maxVal (p :: t) := by
  rcases maxVal_mem p t with ⟨q, hq, hq2⟩
  exact hq2 ▸ minVal_le p t q hq

theorem foldl_max_map_mono {K : Type} [LinearOrder K] (f : K → K)
    (hf : ∀ x y, f (max x y) = max (f x) (f y)) (l : List K) :
    ∀ a : K, (l.map f).foldl max (f a) = f (l.foldl max a) := by
  induction l with
  | nil => intro a; simp
  | cons b l ih =>
    intro a
    rw [List.map_cons, List.foldl_cons, List.foldl_cons, ← hf, ih]

theorem foldl_min_map_mono {K : Type} [LinearOrder K] (f : K → K)
    (hf : ∀ x y, f (min x y) = min (f x) (f y)) (l : List K) :
    ∀ a : K, (l.map f).foldl min (f a) = f (l.foldl min a) := by
  induction l with
  | nil => intro a; simp
  | cons b l ih =>
    intro a
    rw [List.map_cons, List.foldl_cons, List.foldl_cons, ← hf, ih]

theorem maxVal_map_pairs {K : Type} [LinearOrderedField K] (f : K → K)
    (hf : ∀ x y, f (max x y) = max (f x) (f y)) (p : String × K)
    (t : List (String × K)) :
    maxVal ((p :: t).map (fun q => (q.1, f q.2))) = f (maxVal (p :: t)) := by
  rw [List.map_cons, maxVal, maxVal]
  have : (t.map (fun q => (q.1, f q.2))).map Prod.snd = (t.map Prod.snd).map f := by
    simp
  rw [this]
  exact foldl_max_map_mono f hf _ _

theorem minVal_map_pairs {K : Type} [LinearOrderedField K] (f : K → K)
    (hf : ∀ x y, f (min x y) = min (f x) (f y)) (p : String × K)
    (t : List (String × K)) :
    minVal ((p :: t).map (fun q => (q.1, f q.2))) = f (minVal (p :: t)) := by
  rw [List.map_cons, minVal, minVal]
  have : (t.map (fun q => (q.1, f q.2))).map Prod.snd = (t.map Prod.snd).map f := by
    simp
  rw [this]
  exact foldl_min_map_mono f hf _ _

theorem dictSet_not_mem {K : Type} (d : List (String × K)) (k : String) (v : K)
    (h : k ∉ keys d) : dictSet d k v = d ++ [(k, v)] := by
  induction d with
  | nil => rfl
  | cons p d ih =>
    rw [keys, List.map_cons] at h
    have h1 : ¬ p.1 = k := by
      intro he
      exact h (he ▸ List.mem_cons_self _ _)
    have h2 : k ∉ keys d := fun hk => h (List.mem_cons_of_mem _ hk)
    rw [dictSet, if_neg h1, ih h2, List.cons_append]

theorem foldl_dictSet_map {K : Type} (f : String × K → K) :
    ∀ (l : List (String × K)) (d : List (String × K)),
      (∀ p ∈ l, p.1 ∉ keys d) → (keys l).Nodup →
      l.foldl (fun d p => dictSet d p.1 (f p)) d =
        d ++ l.map (fun p => (p.1, f p)) := by
  intro l
  induction l with
  | nil => intro d _ _; simp
  | cons p l ih =>
    intro d hfresh hnodup
    rw [keys, List.map_cons, List.nodup_cons] at hnodup
    rw [List.foldl_cons, dictSet_not_mem d p.1 (f p) (hfresh p (List.mem_cons_self _ _))]
    rw [ih (d ++ [(p.1, f p)]) ?_ hnodup.2]
    · rw [List.map_cons, List.append_assoc, List.singleton_append]
    · intro q hq
      rw [keys, List.map_append]
      intro hmem
      rcases List.mem_append.1 hmem with hmem | hmem
      · exact hfresh q (List.mem_cons_of_mem _ hq) hmem
      · rw [List.map_singleton, List.mem_singleton] at hmem
        exact hnodup.1 (hmem ▸ List.mem_map_of_mem Prod.fst hq)

/-- Counterexample for C6: the collaborative score set entering the
orchestrator's blend (`_get_collaborative_recommendations` in
`unified_recommender.py`) is NOT min-max normalized: for the non-constant
score set a↦1, b↦2 the produced dict is a↦3/10, b↦3/5 (division by the
maximum only, times the 0.6 weight), whose minimum is not 0. -/
theorem C6_counterexample :
    minVal [("a", (1 : ℚ)), ("b", 2)] ≠ maxVal [("a", (1 : ℚ)), ("b", 2)] ∧
    unified_cf_scores (.ok [("a", (1 : ℚ)), ("b", 2)]) =
      [("a", 3 / 10), ("b", 3 / 5)] ∧
    minVal (unified_cf_scores (.ok [("a", (1 : ℚ)), ("b", 2)])) ≠ 0 := by
  have hab : ¬ ("a" : String) = "b" := by decide
  have h2 : unified_cf_scores (.ok [("a", (1 : ℚ)), ("b", 2)]) =
      [("a", 3 / 10), ("b", 3 / 5)] := by
    have hmax : maxVal [("a", (1 : ℚ)), ("b", 2)] = 2 := by
      simp only [maxVal, List.map_cons, List.map_nil, List.foldl_cons,
        List.foldl_nil]
      norm_num
    simp only [unified_cf_scores, hmax, ne_eq, reduceCtorEq, not_false_eq_true,
      if_true, true_and]
    rw [if_neg (by norm_num : ¬ ((2 : ℚ) = 0))]
    simp only [List.foldl_cons, List.foldl_nil, dictSet, if_neg hab]
    norm_num
  refine ⟨?_, h2, ?_⟩
  · simp only [minVal, maxVal, List.map_cons, List.map_nil, List.foldl_cons,
      List.foldl_nil]
    norm_num
  · rw [h2]
    simp only [minVal, List.map_cons, List.map_nil, List.foldl_cons, List.foldl_nil]
    norm_num

/-- C6 (amended): in `get_hybrid_recommendations_cf` (`cf_aux.py`), each
non-empty score set is min-max scaled: a non-constant set maps its minimum
to exactly 0 and its maximum to exactly 1, and an all-equal set has its
range treated as 1 (every score maps to 0, no division by zero).  The
collaborative score set entering the orchestrator's blend
(`_get_collaborative_recommendations` in `unified_recommender.py`) is
instead divided by its maximum score (1.0 for an empty set) and weighted
by 0.6, so only its maximum is pinned, not its minimum — and when the
fetched result set is non-empty with maximum score exactly 0, the
division raises `ZeroDivisionError`, caught by the surrounding handler:
the blend then receives the empty score set. -/
theorem C6_amended_minmax_normalization {K : Type} [LinearOrderedField K]
    (d : List (String × K)) :
    (d ≠ [] → maxVal d ≠ minVal d →
      minVal (minmaxNormalize d) = 0 ∧ maxVal (minmaxNormalize d) = 1) ∧
    (maxVal d = minVal d → ∀ p ∈ minmaxNormalize d, p.2 = 0) ∧
    (∀ res : List (String × K), (keys res).Nodup → (res = [] ∨ maxVal res ≠ 0) →
      unified_cf_scores (.ok res) =
        res.map (fun p => (p.1, p.2 / (if res ≠ [] then maxVal res else 1) * 0.6))) ∧
    (∀ res : List (String × K), res ≠ [] → maxVal res = 0 →
      unified_cf_scores (.ok res) = []) := by
  refine ⟨?_, ?_, ?_, ?_⟩
  · intro hne hconst
    match d with
    | [] => exact absurd rfl hne
    | p :: t =>
      have hlt : minVal (p :: t) < maxVal (p :: t) :=
        lt_of_le_of_ne (minVal_le_maxVal p t) (fun h => hconst h.symm)
      have hrng : 0 < maxVal (p :: t) - minVal (p :: t) := sub_pos.2 hlt
      have hmax : ∀ x y : K,
          (max x y - minVal (p :: t)) / (maxVal (p :: t) - minVal (p :: t)) =
          max ((x - minVal (p :: t)) / (maxVal (p :: t) - minVal (p :: t)))
              ((y - minVal (p :: t)) / (maxVal (p :: t) - minVal (p :: t))) := by
        intro x y
        rw [← max_sub_sub_right, ← max_div_div_right hrng.le]
      have hmin : ∀ x y : K,
          (min x y - minVal (p :: t)) / (maxVal (p :: t) - minVal (p :: t)) =
          min ((x - minVal (p :: t)) / (maxVal (p :: t) - minVal (p :: t)))
              ((y - minVal (p :: t)) / (maxVal (p :: t) - minVal (p :: t))) := by
        intro x y
        rw [← min_sub_sub_right, ← min_div_div_right hrng.le]
      have hunfold : minmaxNormalize (p :: t) =
          (p :: t).map (fun q =>
            (q.1, (q.2 - minVal (p :: t)) / (maxVal (p :: t) - minVal (p :: t)))) := by
        simp only [minmaxNormalize, ne_eq, hconst, not_false_eq_true, if_true]
      rw [hunfold]
      constructor
      · refine Eq.trans (minVal_map_pairs
          (fun x => (x - minVal (p :: t)) / (maxVal (p :: t) - minVal (p :: t)))
          hmin p t) ?_
        rw [sub_self, zero_div]
      · refine Eq.trans (maxVal_map_pairs
          (fun x => (x - minVal (p :: t)) / (maxVal (p :: t) - minVal (p :: t)))
          hmax p t) ?_
        exact div_self hrng.ne'
  · intro hconst q hq
    match d with
    | [] => cases hq
    | p :: t =>
      have hunfold : minmaxNormalize (p :: t) =
          (p :: t).map (fun q => (q.1, (q.2 - minVal (p :: t)) / 1)) := by
        simp only [minmaxNormalize, ne_eq, hconst, not_true_eq_false, if_false]
      rw [hunfold] at hq
      rcases List.mem_map.1 hq with ⟨r, hr, rfl⟩
      have h1 : r.2 ≤ maxVal (p :: t) := le_maxVal p t r hr
      have h2 : minVal (p :: t) ≤ r.2 := minVal_le p t r hr
      have : r.2 = minVal (p :: t) := le_antisymm (hconst ▸ h1) h2
      simp [this]
  · intro res hnodup hres
    have hguard : ¬ (res ≠ [] ∧ (if res ≠ [] then maxVal res else 1) = 0) := by
      rintro ⟨hne, hzero⟩
      rw [if_pos hne] at hzero
      rcases hres with rfl | hmax
      · exact hne rfl
      · exact hmax hzero
    simp only [unified_cf_scores]
    rw [if_neg hguard]
    exact foldl_dictSet_map _ res [] (fun p _ h => by cases h) hnodup
  · intro res hne hzero
    have hguard : res ≠ [] ∧ (if res ≠ [] then maxVal res else 1) = 0 :=
      ⟨hne, by rw [if_pos hne]; exact hzero⟩
    simp only [unified_cf_scores]
    rw [if_pos hguard]

/-- Witness for C6 (amended): the non-constant set a↦1, b↦3 min-max
normalizes to minimum 0 and maximum 1; the orchestrator-side collaborative
set c↦2, d↦4 is max-divided and weighted; the all-zero singleton set e↦0
hits the caught `ZeroDivisionError` path and yields the empty dict. -/
theorem C6_amended_minmax_normalization_witness :
    (minVal (minmaxNormalize [("a", (1 : ℚ)), ("b", 3)]) = 0 ∧
     maxVal (minmaxNormalize [("a", (1 : ℚ)), ("b", 3)]) = 1) ∧
    unified_cf_scores (.ok [("c", (2 : ℚ)), ("d", 4)]) =
      [("c", (2 : ℚ)), ("d", 4)].map
        (fun p => (p.1, p.2 / (if [("c", (2 : ℚ)), ("d", 4)] ≠ [] then
          maxVal [("c", (2 : ℚ)), ("d", 4)] else 1) * 0.6)) ∧
    unified_cf_scores (.ok [("e", (0 : ℚ))]) = [] :=
  ⟨(C6_amended_minmax_normalization [("a", (1 : ℚ)), ("b", 3)]).1
      (by decide)
      (by
        simp only [maxVal, minVal, List.map_cons, List.map_nil, List.foldl_cons,
          List.foldl_nil]
        norm_num),
   (C6_amended_minmax_normalization ([] : List (String × ℚ))).2.2.1
      [("c", (2 : ℚ)), ("d", 4)] (by decide) (Or.inr (by decide)),
   (C6_amended_minmax_normalization ([] : List (String × ℚ))).2.2.2
      [("e", (0 : ℚ))] (by decide) (by decide)⟩

theorem mem_keys_foldl_dictAdd {K : Type} [Add K] (l : List (String × K)) :
    ∀ (d : List (String × K)) (k : String),
      k ∈ keys (l.foldl (fun d p => dictAdd d p.1 p.2) d) →
      k ∈ keys d ∨ k ∈ keys l := by
  induction l with
  | nil => intro d k h; exact Or.inl h
  | cons p l ih =>
    intro d k h
    rw [List.foldl_cons] at h
    rcases ih _ k h with h' | h'
    · rcases mem_keys_dictAdd d p.1 k p.2 h' with h'' | h''
      · exact Or.inl h''
      · refine Or.inr ?_
        rw [keys, List.map_cons]
        exact h'' ▸ List.mem_cons_self _ _
    · refine Or.inr ?_
      rw [keys, List.map_cons]
      rw [keys] at h'
      exact List.mem_cons_of_mem _ h'

theorem _combine_recommendations_subset {K : Type} [LinearOrderedField K]
    (content_scores cf_scores : List (String × K)) (n : ℕ) :
    ∀ id ∈ _combine_recommendations content_scores cf_scores n,
      id ∈ keys content_scores ∨ id ∈ keys cf_scores := by
  intro id hid
  rw [_combine_recommendations] at hid
  rcases List.mem_map.1 hid with ⟨p, hp, rfl⟩
  have hp2 : p ∈ sortByScoreDesc ((content_scores ++ cf_scores).foldl
      (fun d p => dictAdd d p.1 p.2) []) := List.take_subset _ _ hp
  have hp3 := (sortByScoreDesc_perm _).subset hp2
  have hp4 : p.1 ∈ keys ((content_scores ++ cf_scores).foldl
      (fun d p => dictAdd d p.1 p.2) []) := List.mem_map_of_mem Prod.fst hp3
  rcases mem_keys_foldl_dictAdd _ _ _ hp4 with h | h
  · cases h
  · rw [keys, List.map_append] at h
    exact List.mem_append.1 h

theorem mem_keys_dictSet {K : Type} (d : List (String × K)) (k k' : String) (v : K)
    (h : k' ∈ keys (dictSet d k v)) : k' ∈ keys d ∨ k' = k := by
  induction d with
  | nil =>
    rw [dictSet, keys, List.map_singleton, List.mem_singleton] at h
    exact Or.inr h
  | cons p d ih =>
    by_cases hp : p.1 = k
    · rw [dictSet, if_pos hp, keys, List.map_cons, List.mem_cons] at h
      rcases h with h | h
      · exact Or.inr h
      · exact Or.inl (by rw [keys, List.map_cons]; exact List.mem_cons_of_mem _ h)
    · rw [dictSet, if_neg hp, keys, List.map_cons, List.mem_cons] at h
      rcases h with h | h
      · exact Or.inl (by rw [keys, List.map_cons]; exact h ▸ List.mem_cons_self _ _)
      · rcases ih h with h' | h'
        · exact Or.inl (by rw [keys, List.map_cons]; exact List.mem_cons_of_mem _ h')
        · exact Or.inr h'

theorem mem_keys_foldl_dictSet {K : Type} (g : ℕ × String → K)
    (l : List (ℕ × String)) :
    ∀ (d : List (String × K)) (k : String),
      k ∈ keys (l.foldl (fun d p => dictSet d p.2 (g p)) d) →
      k ∈ keys d ∨ k ∈ l.map Prod.snd := by
  induction l with
  | nil => intro d k h; exact Or.inl h
  | cons p l ih =>
    intro d k h
    rw [List.foldl_cons] at h
    rcases ih _ k h with h' | h'
    · rcases mem_keys_dictSet d p.2 k (g p) h' with h'' | h''
      · exact Or.inl h''
      · exact Or.inr (by rw [List.map_cons]; exact h'' ▸ List.mem_cons_self _ _)
    · exact Or.inr (by rw [List.map_cons]; exact List.mem_cons_of_mem _ h')

theorem mem_keys_content_scores {K : Type} [LinearOrderedField K]
    (ids : List String) (k : String)
    (h : k ∈ keys (content_scores_from_ids ids : List (String × K))) : k ∈ ids := by
  rw [content_scores_from_ids] at h
  rcases mem_keys_foldl_dictSet _ _ _ _ h with h' | h'
  · cases h'
  · rw [List.enum_map_snd] at h'
    exact h'

/-- C5: the `cf_aux.py` hybrid blend with the weights the orchestrator
passes (collaborative 0.6, content 0.4) assigns every output id the score
`0.6 * normalized_cf + 0.4 * normalized_content` (an id missing from one
set receiving 0 from it), keeps only ids from the union of the two input
id sets, sorts descending and truncates to `n`; and the orchestrator's own
combination step likewise only emits ids from the union of its two score
sets, so every warm user's output is contained in the union of the
content-based and collaborative candidate id sets. -/
theorem C5_weighted_union_blend {K : Type} [LinearOrderedField K]
    (cf_recs content_recs : List (String × K)) (n : ℕ) :
    (∀ p ∈ get_hybrid_recommendations_cf cf_recs content_recs n 0.6 0.4,
      (p.1 ∈ keys cf_recs ∨ p.1 ∈ keys content_recs) ∧
      p.2 = lookupVal (minmaxNormalize cf_recs) p.1 * 0.6 +
            lookupVal (minmaxNormalize content_recs) p.1 * 0.4) ∧
    (get_hybrid_recommendations_cf cf_recs content_recs n 0.6 0.4).length ≤ n ∧
    (get_hybrid_recommendations_cf cf_recs content_recs n 0.6 0.4).Pairwise
      (fun a b => b.2 ≤ a.2) ∧
    (∀ (content_scores cf_scores : List (String × K)) (m : ℕ),
      ∀ id ∈ _combine_recommendations content_scores cf_scores m,
        id ∈ keys content_scores ∨ id ∈ keys cf_scores) ∧
    (∀ (find_one : String → Option (UserDoc K)) (env : OrchestratorEnv K)
       (user_id : String) (m : ℕ),
      cold_start_threshold ≤ get_user_interaction_count find_one user_id →
      ∀ id ∈ generate_unified_recommendations find_one env user_id m,
        id ∈ env.contentIds user_id (m * 2) ∨
        id ∈ keys (unified_cf_scores (env.cfResults user_id (m * 2)))) := by
  refine ⟨?_, ?_, ?_, ?_, ?_⟩
  · intro p hp
    rw [get_hybrid_recommendations_cf] at hp
    by_cases hemp : pyDedup (keys cf_recs ++ keys content_recs) = []
    · rw [if_pos hemp] at hp
      cases hp
    · rw [if_neg hemp] at hp
      have hp2 := List.take_subset _ _ hp
      have hp3 := (sortByScoreDesc_perm _).subset hp2
      rcases List.mem_map.1 hp3 with ⟨id, hid, rfl⟩
      have hsub := pyDedup_subset _ _ hid
      exact ⟨List.mem_append.1 hsub, rfl⟩
  · rw [get_hybrid_recommendations_cf]
    by_cases hemp : pyDedup (keys cf_recs ++ keys content_recs) = []
    · rw [if_pos hemp]
      exact Nat.zero_le n
    · rw [if_neg hemp, List.length_take]
      exact min_le_left _ _
  · rw [get_hybrid_recommendations_cf]
    by_cases hemp : pyDedup (keys cf_recs ++ keys content_recs) = []
    · rw [if_pos hemp]
      exact List.Pairwise.nil
    · rw [if_neg hemp]
      exact List.Pairwise.sublist (List.take_sublist _ _) (sortByScoreDesc_sorted _)
  · exact fun c f m => _combine_recommendations_subset c f m
  · intro find_one env user_id m h id hid
    have hb : is_cold_start_user find_one user_id = false := by
      simp [is_cold_start_user, Nat.not_lt.2 h]
    rw [generate_unified_recommendations, hb] at hid
    simp only [Bool.false_eq_true, if_false] at hid
    rw [_get_hybrid_recommendations] at hid
    rcases _combine_recommendations_subset _ _ _ id hid with h' | h'
    · exact Or.inl (mem_keys_content_scores _ _ h')
    · exact Or.inr h'

/-- Witness for C5 at a concrete singleton collaborative score set. -/
theorem C5_weighted_union_blend_witness :
    ("a" ∈ keys [("a", (2 : ℚ))] ∨ "a" ∈ keys ([] : List (String × ℚ))) := by
  have hall : pyDedup (keys [("a", (2 : ℚ))] ++ keys ([] : List (String × ℚ))) =
      ["a"] := by decide
  have hmem : ("a", lookupVal (minmaxNormalize [("a", (2 : ℚ))]) "a" * 0.6 +
      lookupVal (minmaxNormalize ([] : List (String × ℚ))) "a" * 0.4) ∈
      get_hybrid_recommendations_cf [("a", (2 : ℚ))] [] 1 0.6 0.4 := by
    simp only [get_hybrid_recommendations_cf]
    rw [hall, if_neg (by decide : ¬ (["a"] : List String) = []),
      List.map_cons, List.map_nil, sortByScoreDesc, List.mergeSort_singleton]
    simp
  exact ((C5_weighted_union_blend [("a", (2 : ℚ))] [] 1).1 _ hmem).1

theorem lookupVal_collab_inner {K : Type} [LinearOrderedField K]
    (excl : List String) (s : K) (l : List (String × String × K)) :
    ∀ (d : List (String × K)) (k : String),
      lookupVal (l.foldl (fun d ev =>
        if ev.1 ∈ excl then d else dictAdd d ev.1 (s * ev.2.2)) d) k
      = lookupVal d k + (if k ∈ excl then 0
          else s * ((l.filter (fun ev => ev.1 = k)).map (fun ev => ev.2.2)).sum) := by
  induction l with
  | nil =>
    intro d k
    by_cases hk : k ∈ excl <;> simp [hk]
  | cons ev l ih =>
    intro d k
    rw [List.foldl_cons]
    by_cases hk : k ∈ excl
    · rw [if_pos hk, ih, if_pos hk]
      by_cases hev : ev.1 ∈ excl
      · rw [if_pos hev]
      · rw [if_neg hev, lookupVal_dictAdd,
          if_neg (fun he : k = ev.1 => hev (he ▸ hk))]
        ring
    · rw [if_neg hk, ih, if_neg hk, List.filter_cons]
      by_cases hev : ev.1 ∈ excl
      · rw [if_pos hev]
        have hne : ¬ (ev.1 = k) := fun he => hk (he ▸ hev)
        rw [if_neg (by simpa using hne)]
      · rw [if_neg hev, lookupVal_dictAdd]
        by_cases heq : ev.1 = k
        · rw [if_pos heq.symm, if_pos (by simpa using heq), List.map_cons,
            List.sum_cons]
          ring
        · rw [if_neg (fun he : k = ev.1 => heq he.symm),
            if_neg (by simpa using heq)]
          ring

theorem lookupVal_collab_outer {K : Type} [LinearOrderedField K]
    (find_one : String → Option (UserDoc K)) (excl : List String)
    (similar : List (String × K)) :
    ∀ (d : List (String × K)) (k : String),
      lookupVal (similar.foldl (fun d p =>
        (get_events_from_user find_one p.1 ["likes", "saves", "visits"]).foldl
          (fun d ev => if ev.1 ∈ excl then d else dictAdd d ev.1 (p.2 * ev.2.2)) d) d) k
      = lookupVal d k + (if k ∈ excl then 0
          else (similar.map (fun p => p.2 *
            (((get_events_from_user find_one p.1 ["likes", "saves", "visits"]).filter
              (fun ev => ev.1 = k)).map (fun ev => ev.2.2)).sum)).sum) := by
  induction similar with
  | nil =>
    intro d k
    by_cases hk : k ∈ excl <;> simp [hk]
  | cons p similar ih =>
    intro d k
    rw [List.foldl_cons, ih, lookupVal_collab_inner]
    by_cases hk : k ∈ excl
    · simp [hk]
    · rw [if_neg hk, if_neg hk, if_neg hk, List.map_cons, List.sum_cons]
      ring

theorem lookupVal_collab_event_scores {K : Type} [LinearOrderedField K]
    (find_one : String → Option (UserDoc K)) (excl : List String)
    (similar : List (String × K)) (k : String) :
    lookupVal (collab_event_scores find_one excl similar) k
      = if k ∈ excl then 0
        else (similar.map (fun p => p.2 *
          (((get_events_from_user find_one p.1 ["likes", "saves", "visits"]).filter
            (fun ev => ev.1 = k)).map (fun ev => ev.2.2)).sum)).sum := by
  rw [collab_event_scores, lookupVal_collab_outer]
  rw [lookupVal, zero_add]

theorem keys_collab_inner_not_excl {K : Type} [LinearOrderedField K]
    (excl : List String) (s : K) (l : List (String × String × K)) :
    ∀ d : List (String × K), (∀ k ∈ keys d, k ∉ excl) →
      ∀ k ∈ keys (l.foldl (fun d ev =>
        if ev.1 ∈ excl then d else dictAdd d ev.1 (s * ev.2.2)) d), k ∉ excl := by
  induction l with
  | nil => intro d hd k hk; exact hd k hk
  | cons ev l ih =>
    intro d hd k hk
    rw [List.foldl_cons] at hk
    by_cases hev : ev.1 ∈ excl
    · rw [if_pos hev] at hk
      exact ih d hd k hk
    · rw [if_neg hev] at hk
      refine ih _ ?_ k hk
      intro k' hk'
      rcases mem_keys_dictAdd _ _ _ _ hk' with h | h
      · exact hd k' h
      · exact h ▸ hev

theorem keys_collab_event_scores_not_excl {K : Type} [LinearOrderedField K]
    (find_one : String → Option (UserDoc K)) (excl : List String)
    (similar : List (String × K)) :
    ∀ k ∈ keys (collab_event_scores find_one excl similar), k ∉ excl := by
  rw [collab_event_scores]
  suffices h : ∀ d : List (String × K), (∀ k ∈ keys d, k ∉ excl) →
      ∀ k ∈ keys (similar.foldl (fun d p =>
        (get_events_from_user find_one p.1 ["likes", "saves", "visits"]).foldl
          (fun d ev => if ev.1 ∈ excl then d else dictAdd d ev.1 (p.2 * ev.2.2)) d) d),
        k ∉ excl by
    exact h [] (fun k hk => by cases hk)
  induction similar with
  | nil => intro d hd k hk; exact hd k hk
  | cons p similar ih =>
    intro d hd k hk
    rw [List.foldl_cons] at hk
    exact ih _ (keys_collab_inner_not_excl excl p.2 _ d hd) k hk

/-- The collaborative aggregation at the `cx_find_one` inputs: the score
dict is the singleton x ↦ 1 · strength(likes), sorted and truncated
unchanged. -/
theorem cx_aggregate_eq :
    collab_aggregate_sorted cx_find_one "u" [("v", 1)] 10 0 true =
      [("x", 1 * cf_interaction_weight "likes")] := by
  have hseen : get_user_seen_event_ids cx_find_one "u" = [] := rfl
  have hfilter : ([("v", (1 : ℚ))].filter (fun p => (0 : ℚ) ≤ p.2)) = [("v", 1)] := by
    rw [List.filter_cons, if_pos (by norm_num)]
    rfl
  have hevents : get_events_from_user cx_find_one "v" ["likes", "saves", "visits"] =
      [("x", "likes", cf_interaction_weight "likes")] := rfl
  have hscores : collab_event_scores cx_find_one [] [("v", (1 : ℚ))] =
      [("x", 1 * cf_interaction_weight "likes")] := by
    rw [collab_event_scores, List.foldl_cons, List.foldl_nil, hevents,
      List.foldl_cons, List.foldl_nil]
    rw [if_neg (by decide : ¬ ("x" : String) ∈ ([] : List String))]
    rfl
  rw [collab_aggregate_sorted]
  simp only [if_true, hseen, hfilter]
  rw [if_neg (by decide : ¬ ([(("v" : String), (1 : ℚ))] = [])), hscores,
    sortByScoreDesc, List.mergeSort_singleton]
  rfl

/-- Counterexample for C7: the querying user "u" has item "x" in their own
`likes` log, yet "x" is NOT excluded from the collaborative aggregation —
it is scored and returned, because the code excludes the `seen` field
(empty here), not the interaction logs. -/
theorem C7_counterexample :
    (∃ u, cx_find_one "u" = some u ∧ "x" ∈ u.likes.map (fun e => e.id)) ∧
    "x" ∈ (collab_aggregate_sorted cx_find_one "u" [("v", 1)] 10 0 true).map
      Prod.fst := by
  constructor
  · exact ⟨_, rfl, by simp⟩
  · rw [cx_aggregate_eq]
    simp

/-- C7 (amended): in the collaborative aggregation step, every interacted
item of each retained similar user accumulates
`similarity × interaction-kind-strength` (summed over that user's matching
events and over all similar users), and every item id in the querying
user's `seen` list — not the interaction logs — is excluded from the
accumulated scores, hence absent from the sorted, truncated output. -/
theorem C7_amended_aggregation_excludes_seen {K : Type} [LinearOrderedField K]
    (find_one : String → Option (UserDoc K)) (user_id : String)
    (similar_users : List (String × K)) (n : ℕ) (min_similarity : K) :
    (∀ p ∈ collab_aggregate_sorted find_one user_id similar_users n
        min_similarity true,
      p.1 ∉ get_user_seen_event_ids find_one user_id) ∧
    (∀ (excl : List String) (similar : List (String × K)) (k : String),
      k ∉ excl →
      lookupVal (collab_event_scores find_one excl similar) k =
        (similar.map (fun p => p.2 *
          (((get_events_from_user find_one p.1 ["likes", "saves", "visits"]).filter
            (fun ev => ev.1 = k)).map (fun ev => ev.2.2)).sum)).sum) ∧
    (∀ (excl : List String) (similar : List (String × K)) (k : String),
      k ∈ excl → lookupVal (collab_event_scores find_one excl similar) k = 0) := by
  refine ⟨?_, ?_, ?_⟩
  · intro p hp
    rw [collab_aggregate_sorted] at hp
    simp only [if_true] at hp
    by_cases hsim : similar_users.filter
        (fun p => min_similarity ≤ p.2) = []
    · rw [if_pos hsim] at hp
      cases hp
    · rw [if_neg hsim] at hp
      have hp2 := (sortByScoreDesc_perm _).subset (List.take_subset _ _ hp)
      exact keys_collab_event_scores_not_excl find_one _ _ p.1
        (List.mem_map_of_mem Prod.fst hp2)
  · intro excl similar k hk
    rw [lookupVal_collab_event_scores, if_neg hk]
  · intro excl similar k hk
    rw [lookupVal_collab_event_scores, if_pos hk]

/-- Witness for C7 (amended) at the `cx_find_one` inputs. -/
theorem C7_amended_aggregation_excludes_seen_witness :
    ("x", (1 : ℚ) * cf_interaction_weight "likes").1 ∉
      get_user_seen_event_ids cx_find_one "u" ∧
    lookupVal (collab_event_scores cx_find_one [] [("v", (1 : ℚ))]) "x" =
      ([("v", (1 : ℚ))].map (fun p => p.2 *
        (((get_events_from_user cx_find_one p.1 ["likes", "saves", "visits"]).filter
          (fun ev => ev.1 = "x")).map (fun ev => ev.2.2)).sum)).sum :=
  ⟨(C7_amended_aggregation_excludes_seen cx_find_one "u" [("v", 1)] 10 0).1
      ("x", 1 * cf_interaction_weight "likes")
      (by rw [cx_aggregate_eq]; exact List.mem_cons_self _ _),
   (C7_amended_aggregation_excludes_seen cx_find_one "u" [("v", 1)] 10 0).2.1
      [] [("v", 1)] "x" (by decide)⟩

theorem addItems_eq_addPairs (now lam strength : ℝ) (st : Option (List ℝ) × ℝ)
    (items : List (EmbeddedInteraction ℝ)) :
    addItems now lam strength st items =
      addPairs st (items.map (fun it => (decayWeight now lam strength it, it.vector))) := by
  rw [addPairs, List.foldl_map]
  rfl

theorem addPairs_append (st : Option (List ℝ) × ℝ) (l1 l2 : List (ℝ × List ℝ)) :
    addPairs st (l1 ++ l2) = addPairs (addPairs st l1) l2 := by
  rw [addPairs, addPairs, addPairs, List.foldl_append]

theorem addPairs_some (l : List (ℝ × List ℝ)) :
    ∀ (s : List ℝ) (w : ℝ),
      addPairs (some s, w) l =
        (some (l.foldl (fun s q => vadd s (smul q.1 q.2)) s),
         w + (l.map Prod.fst).sum) := by
  induction l with
  | nil =>
    intro s w
    simp [addPairs]
  | cons p l ih =>
    intro s w
    rw [addPairs, List.foldl_cons]
    have hstep := ih (vadd s (smul p.1 p.2)) (w + p.1)
    rw [addPairs] at hstep
    rw [hstep, List.foldl_cons, List.map_cons, List.sum_cons, add_assoc]

theorem addPairs_cons_none (p : ℝ × List ℝ) (l : List (ℝ × List ℝ)) :
    addPairs (none, 0) (p :: l) =
      (some (weightedVecSum (p :: l)), totalWeight (p :: l)) := by
  rw [addPairs, List.foldl_cons]
  have h0 : addPairs ((some (smul p.1 p.2), (0 : ℝ) + p.1)) l =
      (some (l.foldl (fun s q => vadd s (smul q.1 q.2)) (smul p.1 p.2)),
       ((0 : ℝ) + p.1) + (l.map Prod.fst).sum) := addPairs_some l _ _
  rw [addPairs] at h0
  rw [h0, weightedVecSum, totalWeight, List.map_cons, List.sum_cons, zero_add]

theorem get_full_recalc_eq_addPairs
    (likes saves visits : List (EmbeddedInteraction ℝ)) (now lam : ℝ) :
    get_full_recalc_user_vector likes saves visits now lam =
      (match (addPairs (none, 0) (weightedInteractions now lam likes saves visits)).1 with
       | none => (none, 0)
       | some vector_sum =>
         (some (normalizeVec vector_sum),
          (addPairs (none, 0) (weightedInteractions now lam likes saves visits)).2)) := by
  have hst : addItems now lam VISIT_STRENGTH
      (addItems now lam SAVE_STRENGTH
        (addItems now lam LIKE_STRENGTH (none, 0) likes) saves) visits
      = addPairs (none, 0) (weightedInteractions now lam likes saves visits) := by
    rw [addItems_eq_addPairs, addItems_eq_addPairs, addItems_eq_addPairs,
      ← addPairs_append, ← addPairs_append, weightedInteractions,
      ← List.append_assoc]
  simp only [get_full_recalc_user_vector]
  rw [hst]

/-- C4: the collaborative full-history vector is the (guarded) unit
normalization of `Σ strength(kind)·exp(−λ·age_days)·item_vec` over all
logged likes (strength 1.0), saves (2.0) and visits (0.5), paired with the
accumulated total weight `Σ weight`; the decay constants 0.01
(`LAMBDA_DECAY`) and 0.05 (the recalculation default) lie in [0.01, 0.05];
and a user whose three interaction logs are all empty yields no vector,
upon which the collaborative recommender returns an empty result instead
of an error. -/
theorem C4_full_history_vector
    (likes saves visits : List (EmbeddedInteraction ℝ)) (now lam : ℝ) :
    (weightedInteractions now lam likes saves visits = [] →
      get_full_recalc_user_vector likes saves visits now lam = (none, 0)) ∧
    (weightedInteractions now lam likes saves visits ≠ [] →
      get_full_recalc_user_vector likes saves visits now lam =
        (some (normalizeVec
          (weightedVecSum (weightedInteractions now lam likes saves visits))),
         totalWeight (weightedInteractions now lam likes saves visits))) ∧
    (∀ (it : EmbeddedInteraction ℝ) (strength : ℝ),
      decayWeight now lam strength it =
        strength * Real.exp (-(lam * ((now - it.ts) / 86400)))) ∧
    ((LIKE_STRENGTH : ℝ) = 1 ∧ (SAVE_STRENGTH : ℝ) = 2 ∧
     (VISIT_STRENGTH : ℝ) = 0.5) ∧
    ((0.01 : ℝ) ≤ FULL_RECALC_LAMBDA_DEFAULT ∧
     (FULL_RECALC_LAMBDA_DEFAULT : ℝ) ≤ 0.05 ∧
     (0.01 : ℝ) ≤ LAMBDA_DECAY ∧ (LAMBDA_DECAY : ℝ) ≤ 0.05) ∧
    (∀ v : List ℝ, norm v ≠ 0 → norm (normalizeVec v) = 1) ∧
    (∀ (find_one : String → Option (UserDoc ℝ)) (item_vec : String → List ℝ)
       (similar_users_of : List ℝ → List (String × ℝ)) (user_id : String)
       (nn : ℕ) (ms : ℝ) (ei : Bool) (u : UserDoc ℝ),
      find_one user_id = some u → u.likes = [] → u.saves = [] → u.visits = [] →
      u.vector = none →
      get_collaborative_recommendations find_one item_vec similar_users_of now
        user_id nn ms ei = .ok []) := by
  have hempty : ∀ (l1 l2 l3 : List (EmbeddedInteraction ℝ)) (lam' : ℝ),
      weightedInteractions now lam' l1 l2 l3 = [] →
      get_full_recalc_user_vector l1 l2 l3 now lam' = (none, 0) := by
    intro l1 l2 l3 lam' hW
    rw [get_full_recalc_eq_addPairs, hW]
    rfl
  refine ⟨hempty likes saves visits lam, ?_, ?_,
    ⟨by rw [LIKE_STRENGTH]; norm_num, by rw [SAVE_STRENGTH]; norm_num,
     by rw [VISIT_STRENGTH]⟩, ?_, ?_, ?_⟩
  · intro hW
    rw [get_full_recalc_eq_addPairs]
    match hWm : weightedInteractions now lam likes saves visits with
    | [] => exact absurd hWm hW
    | p :: l =>
      rw [addPairs_cons_none]
  · intro it strength
    rfl
  · refine ⟨?_, ?_, ?_, ?_⟩ <;>
      simp only [FULL_RECALC_LAMBDA_DEFAULT, LAMBDA_DECAY] <;> norm_num
  · intro v hv
    rw [normalizeVec, if_neg hv]
    exact norm_map_div_norm v hv
  · intro find_one item_vec suo user_id nn ms ei u hu hl hs hv hvec
    have hall : get_all_user_interactions find_one item_vec user_id =
        .ok ([], [], []) := by
      simp [get_all_user_interactions, hu, hl, hs, hv]
    have hcalc : calculate_user_vector find_one item_vec now user_id =
        .ok (none, 0) := by
      simp only [calculate_user_vector, hu, hvec, hall, Except.map]
      have : get_full_recalc_user_vector [] [] [] now FULL_RECALC_LAMBDA_DEFAULT =
          (none, 0) := hempty [] [] [] _ rfl
      rw [this]
    rw [get_collaborative_recommendations, hcalc]

/-- Witness for C4: empty interaction logs yield `(none, 0)` from the full
recalculation, and the collaborative recommender returns `ok []` for the
stored empty-log user. -/
theorem C4_full_history_vector_witness :
    get_full_recalc_user_vector [] [] [] 0 0.05 = (none, 0) ∧
    get_collaborative_recommendations empty_user_find_one (fun _ => [])
      (fun _ => []) 0 "e" 10 0 true = .ok [] :=
  ⟨(C4_full_history_vector [] [] [] 0 0.05).1 rfl,
   (C4_full_history_vector [] [] [] 0 0.05).2.2.2.2.2.2 empty_user_find_one
     (fun _ => []) (fun _ => []) "e" 10 0 true emptyUserR rfl rfl rfl rfl rfl⟩

end TurisLima
